import Mathlib

/-!
Verification of the recurring-event expansion and occurrence-tracking engine
of the figurellaAI calendar (`app/calendar/routes.py`).

Shallow embedding conventions:

* A UTC instant is an integer count of microseconds since the Rata Die epoch
  (so `rdOfCivil 1 1 1 = 1` is day one, 0001-01-01).  Python `datetime`
  values in the source are always passed through `_as_utc` before use, and
  `_as_utc` treats naive datetimes as UTC, so every datetime is represented
  here by its UTC instant.
* `datetime.date()` is integer division by `usPerDay`; the time of day is the
  remainder.  Python `//` and `%` on integers are floor division and floor
  remainder, which for the positive divisors used throughout agree with
  Lean's `Int` `/` and `%` (Euclidean division).
* Calendar field access (`.year`, `.month`, `.day`) and construction
  (`datetime(y, m, d, h, mi, s)`) are `civilFromRD` and `rdOfCivil` below,
  the standard proleptic-Gregorian conversions used by `datetime`.
* JSON lists are Lean lists; `rrule` / missing values are `Option`.
* Generators are the lists of their yields (all consumers call `list(...)`
  or iterate to exhaustion).
-/

/-! ### Calendar arithmetic -/

def usPerDay : ℤ := 86400000000

/-- Cumulative days before month `m` in a non-leap year. -/
def daysBefore (m : ℤ) : ℤ :=
  if m = 1 then 0 else if m = 2 then 31 else if m = 3 then 59
  else if m = 4 then 90 else if m = 5 then 120 else if m = 6 then 151
  else if m = 7 then 181 else if m = 8 then 212 else if m = 9 then 243
  else if m = 10 then 273 else if m = 11 then 304 else 334

def isLeap (y : ℤ) : Bool :=
  (decide (y % 4 = 0) && !(decide (y % 100 = 0))) || decide (y % 400 = 0)

/-- Rata Die day number of a civil date (`0001-01-01` is day 1); the same
day numbering as Python's `datetime.toordinal`. -/
def rdOfCivil (y m d : ℤ) : ℤ :=
  365 * (y - 1) + (y - 1).fdiv 4 - (y - 1).fdiv 100 + (y - 1).fdiv 400
    + daysBefore m + (if isLeap y && decide (2 < m) then 1 else 0) + d

structure Civil where
  y : ℤ
  m : ℤ
  d : ℤ
deriving DecidableEq, Repr

/-- Civil date of a Rata Die day number (inverse of `rdOfCivil`), via the
standard era-based conversion. -/
def civilFromRD (rd : ℤ) : Civil :=
  let z := rd + 305
  let era := z.fdiv 146097
  let doe := z - era * 146097
  let yoe := (doe - doe / 1460 + doe / 36524 - doe / 146096) / 365
  let doy := doe - (365 * yoe + yoe / 4 - yoe / 100)
  let mp := (5 * doy + 2) / 153
  let dd := doy - (153 * mp + 2) / 5 + 1
  let mm := if mp < 10 then mp + 3 else mp - 9
  ⟨(if mm ≤ 2 then yoe + era * 400 + 1 else yoe + era * 400), mm, dd⟩

/-- Instant (microseconds since epoch) of a civil date-time. -/
def mkInstant (y m d h mi s us : ℤ) : ℤ :=
  rdOfCivil y m d * usPerDay + h * 3600000000 + mi * 60000000 + s * 1000000 + us

/-- Python `weekday()`: Monday is 0.  0001-01-01 (day 1) was a Monday. -/
def weekday_of (day : ℤ) : ℕ := ((day - 1) % 7).toNat

/-! ### ISO-8601 formatting (`datetime.isoformat` on a UTC instant) -/

def natPad (w n : ℕ) : String :=
  let s := toString n
  String.mk (List.replicate (w - s.length) '0') ++ s

/-- `_as_utc(dt).isoformat()`: `YYYY-MM-DDTHH:MM:SS[.ffffff]+00:00`,
with the microsecond part omitted when zero, as Python does. -/
def isoformat (t : ℤ) : String :=
  let c := civilFromRD (t / usPerDay)
  let tod := (t % usPerDay).toNat
  let sec := tod / 1000000
  let us := tod % 1000000
  natPad 4 c.y.toNat ++ "-" ++ natPad 2 c.m.toNat ++ "-" ++ natPad 2 c.d.toNat ++ "T" ++
    natPad 2 (sec / 3600) ++ ":" ++ natPad 2 (sec / 60 % 60) ++ ":" ++ natPad 2 (sec % 60) ++
    (if us = 0 then "" else "." ++ natPad 6 us) ++ "+00:00"

def strTake (s : String) (n : ℕ) : String := String.mk (s.data.take n)

/-! ### ISO-8601 parsing (`_parse_iso`, routes.py lines 28-35)

`_parse_iso` runs `datetime.fromisoformat(s.replace("Z", "+00:00"))` and
returns `None` on any failure.  We model the dashed ISO grammar accepted by
`fromisoformat` (date, optional single separator character and time with
optional fractional seconds, optional `±HH:MM` offset), returning the UTC
instant (`_as_utc` composed on top: a naive result is taken as UTC, an
aware one is converted by subtracting its offset). -/

def replaceZ : List Char → List Char
  | [] => []
  | c :: cs =>
    if c = 'Z' then '+' :: '0' :: '0' :: ':' :: '0' :: '0' :: replaceZ cs
    else c :: replaceZ cs

def digitVal (c : Char) : Option ℕ :=
  if '0' ≤ c ∧ c ≤ '9' then some (c.toNat - 48) else none

def readFix (acc : ℕ) : ℕ → List Char → Option (ℕ × List Char)
  | 0, cs => some (acc, cs)
  | _ + 1, [] => none
  | n + 1, c :: cs =>
    match digitVal c with
    | some v => readFix (acc * 10 + v) n cs
    | none => none

def readChar (c : Char) : List Char → Option (List Char)
  | [] => none
  | x :: xs => if x = c then some xs else none

def daysInMonthN (y m : ℕ) : ℕ :=
  if m = 2 then (if isLeap (y : ℤ) then 29 else 28)
  else if m = 4 ∨ m = 6 ∨ m = 9 ∨ m = 11 then 30
  else 31

def spanDigits : List Char → List ℕ × List Char
  | [] => ([], [])
  | c :: cs =>
    match digitVal c with
    | some v => let r := spanDigits cs; (v :: r.1, r.2)
    | none => ([], c :: cs)

/-- Fractional seconds: one to six digits, scaled to microseconds. -/
def readFrac (cs : List Char) : Option (ℕ × List Char) :=
  let r := spanDigits cs
  if r.1 = [] ∨ 6 < r.1.length then none
  else some (r.1.foldl (fun a v => a * 10 + v) 0 * 10 ^ (6 - r.1.length), r.2)

/-- Time of day `HH[:MM[:SS[.ffffff]]]` in microseconds. -/
def readTime (cs : List Char) : Option (ℕ × List Char) := do
  let (h, r1) ← readFix 0 2 cs
  if 23 < h then none else
  match r1 with
  | ':' :: r2 => do
    let (mi, r3) ← readFix 0 2 r2
    if 59 < mi then none else
    match r3 with
    | ':' :: r4 => do
      let (s, r5) ← readFix 0 2 r4
      if 59 < s then none else
      match r5 with
      | '.' :: r6 => do
        let (us, r7) ← readFrac r6
        some (h * 3600000000 + mi * 60000000 + s * 1000000 + us, r7)
      | ',' :: r6 => do
        let (us, r7) ← readFrac r6
        some (h * 3600000000 + mi * 60000000 + s * 1000000 + us, r7)
      | _ => some (h * 3600000000 + mi * 60000000 + s * 1000000, r5)
    | _ => some (h * 3600000000 + mi * 60000000, r3)
  | _ => some (h * 3600000000, r1)

/-- UTC offset in minutes: empty (naive, taken as UTC) or `±HH:MM`. -/
def readOffset (cs : List Char) : Option (ℤ × List Char) :=
  match cs with
  | [] => some (0, [])
  | '+' :: r1 =>
    (do
      let (oh, r2) ← readFix 0 2 r1
      let r3 ← readChar ':' r2
      let (om, r4) ← readFix 0 2 r3
      if 23 < oh ∨ 59 < om then none else some ((oh * 60 + om : ℕ), r4))
  | '-' :: r1 =>
    (do
      let (oh, r2) ← readFix 0 2 r1
      let r3 ← readChar ':' r2
      let (om, r4) ← readFix 0 2 r3
      if 23 < oh ∨ 59 < om then none else some (-((oh * 60 + om : ℕ) : ℤ), r4))
  | _ => none

def parseIsoChars (cs : List Char) : Option ℤ := do
  let (y, r1) ← readFix 0 4 cs
  let r2 ← readChar '-' r1
  let (mo, r3) ← readFix 0 2 r2
  let r4 ← readChar '-' r3
  let (d, r5) ← readFix 0 2 r4
  if mo < 1 ∨ 12 < mo ∨ d < 1 ∨ daysInMonthN y mo < d then none else
  let dateUs : ℤ := rdOfCivil (y : ℤ) (mo : ℤ) (d : ℤ) * usPerDay
  match r5 with
  | [] => some dateUs
  | _ :: r6 => do
    let (tod, r7) ← readTime r6
    let (offMin, r8) ← readOffset r7
    if r8 = [] then some (dateUs + (tod : ℤ) - offMin * 60000000) else none

/-- `_parse_iso` composed with `_as_utc`: the UTC instant of an ISO string,
or `none` exactly where the Python helper silently returns `None`. -/
def parse_iso (s : String) : Option ℤ := parseIsoChars (replaceZ s.data)

/-! ### Data model -/

def asciiUpperChar (c : Char) : Char :=
  if 'a' ≤ c ∧ c ≤ 'z' then Char.ofNat (c.toNat - 32) else c

def asciiUpper (s : String) : String := String.mk (s.data.map asciiUpperChar)

def asciiLowerChar (c : Char) : Char :=
  if 'A' ≤ c ∧ c ≤ 'Z' then Char.ofNat (c.toNat + 32) else c

def asciiLower (s : String) : String := String.mk (s.data.map asciiLowerChar)

/-- Recurrence descriptor (the parsed `rrule` JSON object).  `until` is kept
as the already-parsed UTC instant (`_parse_iso` + `_as_utc` of the stored
string, routes.py lines 180-182); a missing or unparsable string is `none`.
`interval` is a natural number; the source reads it as
`int(rr.get("interval") or 1)`, so `0` and a missing value both act as 1
(applied in `expand_event`). -/
structure RRule where
  freq : String
  interval : ℕ
  byweekday : Option (List ℕ)
  bymonthday : Option (List ℕ)
  until_ : Option ℤ
deriving DecidableEq, Repr

/-- The persisted Event row.  `stop` is the source's `end` column (a Lean
keyword).  `completed_on` and `exdates` are the decoded JSON string lists. -/
structure Event where
  id : ℕ
  title : String
  description : String
  location : String
  assignee : String
  start : ℤ
  stop : Option ℤ
  all_day : Bool
  completed : Bool
  completed_on : List String
  exdates : List String
  rrule : Option RRule
deriving DecidableEq, Repr

/-- The occurrence payload fields the claims are about.  `startT` carries the
instant whose `isoformat` is `startIso` (the dict stores only the string). -/
structure Occ where
  oid : String
  startIso : String
  startT : ℤ
  endIso : Option String
  occurrenceStart : String
  completed : Bool
  title : String
  allDay : Bool
deriving DecidableEq, Repr

/-- `_duration` (routes.py lines 104-107): `end - start`, absent if no end. -/
def duration (e : Event) : Option ℤ := e.stop.map (fun x => x - e.start)

/-! ### Occurrence expansion (`_expand_event`, routes.py lines 120-275) -/

/-- `_instance_completed` (lines 130-138): exact ISO match in `completed_on`,
or any entry sharing the `YYYY-MM-DD` prefix (same-day fallback). -/
def instance_completed (completed_on : List String) (iso : String) : Bool :=
  decide (iso ∈ completed_on) ||
    completed_on.any (fun s => decide (strTake s 10 = strTake iso 10))

/-- The payload dict built by `_emit` (lines 140-153) before the exdate test:
base payload (`completed` starts at the series-level flag, line 97) with the
per-occurrence fields, `completed` forced to true when `_instance_completed`. -/
def occ_payload (e : Event) (dur : Option ℤ) (t : ℤ) : Occ :=
  let iso := isoformat t
  { oid := toString e.id ++ ":" ++ iso
    startIso := iso
    startT := t
    endIso := match dur with
      | some dv => if dv ≠ 0 then some (isoformat (t + dv)) else none
      | none => none
    occurrenceStart := iso
    completed := e.completed || instance_completed e.completed_on iso
    title := e.title
    allDay := e.all_day }

/-- `_emit`: drop the occurrence when its ISO start is in `exdates`. -/
def emit (e : Event) (ex : List String) (dur : Option ℤ) (t : ℤ) : List Occ :=
  if isoformat t ∈ ex then [] else [occ_payload e dur t]

/-- The single-occurrence paths (non-recurring, lines 155-175, and unknown
frequency, lines 257-275).  They build the payload directly — no `_emit`, so
no exdate filtering — and differ only in the completion test (`ctest`):
`_instance_completed` for the non-recurring path, exact membership in
`completed_set` for the unknown-frequency path.  `if dur:` is Python
truthiness: a zero timedelta is falsy. -/
def single_occs (e : Event) (dur : Option ℤ) (wS wE : ℤ) (ctest : String → Bool) : List Occ :=
  let s := e.start
  let iso := isoformat s
  let comp := e.completed || ctest iso
  match dur with
  | some dv =>
    if dv ≠ 0 then
      if s < wE ∧ wS < s + dv then
        [{ oid := toString e.id, startIso := iso, startT := s,
           endIso := some (isoformat (s + dv)), occurrenceStart := iso,
           completed := comp, title := e.title, allDay := e.all_day }]
      else []
    else
      if wS ≤ s ∧ s < wE then
        [{ oid := toString e.id, startIso := iso, startT := s, endIso := none,
           occurrenceStart := iso, completed := comp, title := e.title,
           allDay := e.all_day }]
      else []
  | none =>
    if wS ≤ s ∧ s < wE then
      [{ oid := toString e.id, startIso := iso, startT := s, endIso := none,
         occurrenceStart := iso, completed := comp, title := e.title,
         allDay := e.all_day }]
    else []

/-- `until and cur > until` — the (inclusive) until bound is passed. -/
def until_hit (u : Option ℤ) (cur : ℤ) : Bool :=
  match u with
  | some x => decide (x < cur)
  | none => false

/-- The window-intersection test shared by the recurring branches:
`(dur and cur < win_end and (cur + dur) > win_start) or (not dur and cur >= win_start)`.
A present-but-zero duration is falsy in Python, hence the `dv ≠ 0` split. -/
def hits_window (dur : Option ℤ) (wS wE cur : ℤ) : Bool :=
  match dur with
  | some dv =>
    if dv ≠ 0 then decide (cur < wE) && decide (wS < cur + dv) else decide (wS ≤ cur)
  | none => decide (wS ≤ cur)

/-- DAILY loop (lines 188-195): `while cur < win_end`, break past `until`,
emit on window hit, step `interval` days.  `fuel` bounds the iteration count
(supplied ample by `daily_starts`); the loop body is exactly the source's. -/
def daily_loop (wS wE : ℤ) (dur : Option ℤ) (u : Option ℤ) (step : ℤ) :
    ℕ → ℤ → List ℤ
  | 0, _ => []
  | f + 1, cur =>
    if cur < wE then
      if until_hit u cur then []
      else (if hits_window dur wS wE cur then [cur] else []) ++
        daily_loop wS wE dur u step f (cur + step)
    else []

/-- DAILY branch (lines 184-195): first candidate index
`max(0, (win_start.date() - base_start.date()).days)` rounded up to a
multiple of `interval`. -/
def daily_starts (base : ℤ) (dur : Option ℤ) (I : ℕ) (u : Option ℤ)
    (wS wE : ℤ) : List ℤ :=
  let offs : ℕ := (max 0 (wS / usPerDay - base / usPerDay)).toNat
  let offs := if offs % I = 0 then offs else offs + (I - offs % I)
  let cur0 := base + (offs : ℤ) * usPerDay
  daily_loop wS wE dur u ((I : ℤ) * usPerDay) ((wE - cur0).toNat / (I * 86400000000) + 1) cur0

/-- WEEKLY branch (lines 197-212): walk every calendar day from
`win_start.date()` up to but excluding `(win_end + 1 day).date()`; rebuild
the candidate at the anchor's hour/minute/second (microseconds dropped);
qualify by floor week offset and weekday set. -/
def weekly_starts (base : ℤ) (dur : Option ℤ) (I : ℕ) (bywd : Option (List ℕ))
    (u : Option ℤ) (wS wE : ℤ) : List ℤ :=
  let baseDay := base / usPerDay
  let todSec := base % usPerDay / 1000000 * 1000000
  let wd := match bywd with
    | some l => if l = [] then [weekday_of baseDay] else l
    | none => [weekday_of baseDay]
  let day0 := wS / usPerDay
  let lastDay := (wE + usPerDay) / usPerDay
  (List.range (lastDay - day0).toNat).filterMap (fun k =>
    let day := day0 + (k : ℤ)
    let cur := day * usPerDay + todSec
    let weeks := (day - baseDay) / 7
    if weeks % (I : ℤ) = 0 ∧ 0 ≤ weeks ∧ weekday_of day ∈ wd then
      if until_hit u cur then none
      else if hits_window dur wS wE cur then some cur else none
    else none)

/-- One-month cursor step (`cursor.replace(...)`, day stays 1). -/
def month_succ : ℤ × ℤ → ℤ × ℤ :=
  fun c => if c.2 = 12 then (c.1 + 1, 1) else (c.1, c.2 + 1)

/-- Instant of `datetime(y, m, 1, bs.hour, bs.minute, bs.second)`. -/
def month_first_us (todSec : ℤ) (c : ℤ × ℤ) : ℤ :=
  rdOfCivil c.1 c.2 1 * usPerDay + todSec

/-- One visited month of the MONTHLY branch (lines 233-250): for each
requested day-of-month within the month's length, build the candidate and
apply the pre-anchor, until and window tests.  `days_in_month` is computed
as the source does, by subtracting consecutive month starts. -/
def month_scan (base : ℤ) (dur : Option ℤ) (u : Option ℤ) (wS wE todSec : ℤ)
    (mdays : List ℕ) (c : ℤ × ℤ) : List ℤ :=
  let dim := rdOfCivil (month_succ c).1 (month_succ c).2 1 - rdOfCivil c.1 c.2 1
  mdays.filterMap (fun dday =>
    if 1 ≤ dday ∧ (dday : ℤ) ≤ dim then
      let cur := rdOfCivil c.1 c.2 (dday : ℤ) * usPerDay + todSec
      if cur < base then none
      else if until_hit u cur then none
      else if hits_window dur wS wE cur then some cur else none
    else none)

/-- MONTHLY loop (lines 233-255): `while cursor < win_end`, scan the month,
advance `interval` months (the source advances one month `interval` times). -/
def month_loop (base : ℤ) (dur : Option ℤ) (u : Option ℤ) (wS wE todSec : ℤ)
    (mdays : List ℕ) (I : ℕ) : ℕ → ℤ × ℤ → List ℤ
  | 0, _ => []
  | f + 1, c =>
    if month_first_us todSec c < wE then
      month_scan base dur u wS wE todSec mdays c ++
        month_loop base dur u wS wE todSec mdays I f (month_succ^[I] c)
    else []

/-- MONTHLY branch (lines 214-255).  The cursor starts at the later of the
window's month and the anchor's month.  The source's alignment loop
(lines 225-231) initializes `month_index = 0` and runs
`while month_index % interval != 0`, which is false at entry, so it never
executes and the cursor is left where it started. -/
def monthly_starts (base : ℤ) (dur : Option ℤ) (I : ℕ) (bymd : Option (List ℕ))
    (u : Option ℤ) (wS wE : ℤ) : List ℤ :=
  let todSec := base % usPerDay / 1000000 * 1000000
  let bc := civilFromRD (base / usPerDay)
  let wc := civilFromRD (wS / usPerDay)
  let mdays := match bymd with
    | some l => if l = [] then [bc.d.toNat] else l
    | none => [bc.d.toNat]
  let c0 := if month_first_us todSec (wc.y, wc.m) < month_first_us todSec (bc.y, bc.m)
    then (bc.y, bc.m) else (wc.y, wc.m)
  month_loop base dur u wS wE todSec mdays I
    ((wE - month_first_us todSec c0).toNat / (28 * 86400000000) + 1) c0

/-- `_expand_event`: dispatch on the recurrence descriptor.  The recurring
branches flow through `_emit` (exdate filter, per-instance completion); the
non-recurring and unknown-frequency paths yield the single payload directly. -/
def expand_event (e : Event) (wS wE : ℤ) : List Occ :=
  let dur := duration e
  match e.rrule with
  | none => single_occs e dur wS wE (fun iso => instance_completed e.completed_on iso)
  | some rr =>
    let freq := asciiUpper rr.freq
    let I := if rr.interval = 0 then 1 else rr.interval
    if freq = "DAILY" then
      (daily_starts e.start dur I rr.until_ wS wE).flatMap (emit e e.exdates dur)
    else if freq = "WEEKLY" then
      (weekly_starts e.start dur I rr.byweekday rr.until_ wS wE).flatMap (emit e e.exdates dur)
    else if freq = "MONTHLY" then
      (monthly_starts e.start dur I rr.bymonthday rr.until_ wS wE).flatMap (emit e e.exdates dur)
    else
      single_occs e dur wS wE (fun iso => decide (iso ∈ e.completed_on))

/-! ### Events API (routes.py lines 280-489)

The HTTP shell (storage lookups, JSON decoding, Flask plumbing) is an
external collaborator; each endpoint is modelled as a pure function of the
already-loaded Event(s) and the raw request parameters it actually reads. -/

/-- `request.args.get` values are `None` or a string; Python truthiness. -/
def argTruthy : Option String → Bool
  | none => false
  | some s => !(s == "")

inductive RangeOut where
  | badRequest
  | serverErr
  | ok (occs : List Occ)
deriving DecidableEq, Repr

/-- `api_get_events` (lines 280-293): 400 when `start` or `end` is missing or
empty; otherwise both bounds go through `_parse_iso` (silently `None` on a
bad string) and every event is expanded.  With at least one event an unparsed
bound reaches `_as_utc(None)`, which raises (an unhandled 500); with no
events the loop never runs and the response is an empty 200. -/
def api_get_events (events : List Event) (startArg endArg : Option String) : RangeOut :=
  if !(argTruthy startArg && argTruthy endArg) then .badRequest
  else
    let ws := parse_iso (startArg.getD "")
    let we := parse_iso (endArg.getD "")
    if events = [] then .ok []
    else
      match ws, we with
      | some a, some b => .ok (events.flatMap (fun e => expand_event e a b))
      | _, _ => .serverErr

inductive UpdOut where
  | badRequest
  | okOcc (e : Event) (iso : String)
  | okSeries (e : Event)
deriving DecidableEq, Repr

/-- The `"completed" in data` branch of `api_update_event` (lines 364-387):
with a truthy `occurrenceStart`, parse it (400 on failure), normalize to the
UTC ISO string, and append it to `completed_on` only when absent (for
`completed = true`) or remove every copy (for `false`); with no
`occurrenceStart` the series-level flag is set. -/
def api_update_completed (e : Event) (completedVal : Bool) (occRaw : Option String) : UpdOut :=
  match occRaw with
  | some s =>
    if s = "" then .okSeries { e with completed := completedVal }
    else
      match parse_iso s with
      | none => .badRequest
      | some t =>
        let occIso := isoformat t
        if completedVal then
          .okOcc (if occIso ∈ e.completed_on then e
                  else { e with completed_on := e.completed_on ++ [occIso] }) occIso
        else
          .okOcc { e with completed_on := e.completed_on.filter (fun x => x ≠ occIso) } occIso
  | none => .okSeries { e with completed := completedVal }

/-- The event state after one mark-complete request (identity on the error
and series paths). -/
def markStep (s : String) (e : Event) : Event :=
  match api_update_completed e true (some s) with
  | .okOcc e2 _ => e2
  | _ => e

inductive DelOut where
  | badRequest
  | occSkipped (e : Event) (iso : String)
  | seriesDeleted
deriving DecidableEq, Repr

/-- Everything of `event_id` after the first `:` (`split(":", 1)[1]`). -/
def afterColon (s : String) : String :=
  String.mk ((s.data.dropWhile (fun c => c ≠ ':')).drop 1)

/-- `api_delete_event` (lines 422-443): a composite id with `mode != "series"`
only records an exdate (400 if the occurrence part does not parse); the
event row itself is deleted only on the plain/series path. -/
def api_delete_event (e : Event) (event_id : String) (mode : String) : DelOut :=
  if event_id.data.contains ':' && !(asciiLower mode == "series") then
    match parse_iso (afterColon event_id) with
    | none => .badRequest
    | some t =>
      let occIso := isoformat t
      .occSkipped (if occIso ∈ e.exdates then e
                   else { e with exdates := e.exdates ++ [occIso] }) occIso
  else .seriesDeleted

/-- The alarm payload fields the claims are about; `when` is the occurrence
start ISO string used as the sort key. -/
structure Alarm where
  event_id : String
  whenIso : String
  title : String
  start : String
  occurrenceStart : String
  allDay : Bool
deriving DecidableEq, Repr

def alarmOf (o : Occ) : Alarm :=
  { event_id := o.oid, whenIso := o.startIso, title := o.title,
    start := o.startIso, occurrenceStart := o.occurrenceStart, allDay := o.allDay }

/-- Code-point lexicographic `≤` on strings — the order Python's string
comparison (and hence `results.sort(key=...)`) uses. -/
def lexLe : List Char → List Char → Bool
  | [], _ => true
  | _ :: _, [] => false
  | a :: as, b :: bs =>
    if a.toNat < b.toNat then true
    else if b.toNat < a.toNat then false
    else lexLe as bs

/-- Sort key order of the alarm query: ascending by the `when` string. -/
def whenLe (a b : Alarm) : Prop := lexLe a.whenIso.data b.whenIso.data = true

instance : DecidableRel whenLe :=
  fun a b => instDecidableEqBool (lexLe a.whenIso.data b.whenIso.data) true

/-- Python slicing `l[:k]` for a possibly negative `k`. -/
def pySliceTo (l : List Alarm) (k : ℤ) : List Alarm :=
  if 0 ≤ k then l.take k.toNat else l.take ((l.length : ℤ) + k).toNat

/-- `api_upcoming_alarms` (lines 457-489): expand every event over
`[now - grace, now + within)` (minutes), flatten, stable-sort ascending by
the `when` string, truncate to `limit`.  `within`, `grace` and `limit` are
the `_as_int`-parsed query parameters, `now` the wall clock reading. -/
def api_upcoming_alarms (events : List Event) (within grace limit : ℤ) (now : ℤ) : List Alarm :=
  let wS := now - grace * 60000000
  let wE := now + within * 60000000
  let results := events.flatMap (fun e => (expand_event e wS wE).map alarmOf)
  pySliceTo (List.insertionSort whenLe results) limit


/-! ### Predicates and values used in the claim statements -/

def knownFreqB (rr : RRule) : Bool :=
  asciiUpper rr.freq == "DAILY" || asciiUpper rr.freq == "WEEKLY" ||
    asciiUpper rr.freq == "MONTHLY"

def knownShapeB (e : Event) : Bool :=
  match e.rrule with
  | none => true
  | some rr => knownFreqB rr

/-- Keep an optional candidate only when it satisfies `p`. -/
def untilClip (p : ℤ → Bool) : Option ℤ → Option ℤ
  | some t => if p t then some t else none
  | none => none

/-! ### Concrete instances used by the claim theorems -/

/-- MONTHLY, every 2 months, anchored 2025-01-15T09:00Z (day defaults to 15). -/
def eC1 : Event :=
  { id := 4, title := "Monthly visit", description := "", location := "", assignee := "",
    start := mkInstant 2025 1 15 9 0 0 0, stop := none, all_day := false, completed := false,
    completed_on := [], exdates := [], rrule := some ⟨"MONTHLY", 2, none, none, none⟩ }

/-- DAILY series whose series-level `completed` flag is set while
`completed_on` is empty. -/
def eC2 : Event :=
  { id := 5, title := "Daily check", description := "", location := "", assignee := "",
    start := mkInstant 2025 1 1 9 0 0 0, stop := none, all_day := false, completed := true,
    completed_on := [], exdates := [], rrule := some ⟨"DAILY", 1, none, none, none⟩ }

/-- WEEKLY zero-duration series anchored Monday 2025-03-03T09:00Z. -/
def eC3 : Event :=
  { id := 6, title := "Weekly sync", description := "", location := "", assignee := "",
    start := mkInstant 2025 3 3 9 0 0 0, stop := none, all_day := false, completed := false,
    completed_on := [], exdates := [], rrule := some ⟨"WEEKLY", 1, none, none, none⟩ }

/-- WEEKLY series whose anchor start carries a fractional second. -/
def eC4 : Event :=
  { id := 9, title := "Weekly sub-second", description := "", location := "", assignee := "",
    start := mkInstant 2025 3 3 9 0 0 500000, stop := none, all_day := false, completed := false,
    completed_on := [], exdates := [], rrule := some ⟨"WEEKLY", 1, none, none, none⟩ }

/-- Non-recurring event whose own start ISO string is listed in `exdates`. -/
def eC6 : Event :=
  { id := 11, title := "One-off", description := "", location := "", assignee := "",
    start := mkInstant 2025 5 1 10 0 0 0, stop := none, all_day := false, completed := false,
    completed_on := [], exdates := ["2025-05-01T10:00:00+00:00"], rrule := none }

def eC7a : Event :=
  { id := 12, title := "Late", description := "", location := "", assignee := "",
    start := mkInstant 2025 1 1 14 0 0 0, stop := none, all_day := false, completed := false,
    completed_on := [], exdates := [], rrule := none }

def eC7b : Event :=
  { id := 13, title := "Early", description := "", location := "", assignee := "",
    start := mkInstant 2025 1 1 13 0 0 0, stop := none, all_day := false, completed := false,
    completed_on := [], exdates := [], rrule := none }

/-- Whole-second WEEKLY event for the C4 witness. -/
def eC4W : Event :=
  { id := 15, title := "Weekly whole-second", description := "", location := "", assignee := "",
    start := mkInstant 2025 3 3 9 0 0 0, stop := none, all_day := false, completed := false,
    completed_on := [], exdates := [], rrule := some ⟨"WEEKLY", 1, none, none, none⟩ }

def rrC5 : RRule := ⟨"DAILY", 1, none, none, some (mkInstant 2025 1 3 9 0 0 0)⟩

def eC5 : Event :=
  { id := 17, title := "Until daily", description := "", location := "", assignee := "",
    start := mkInstant 2025 1 1 9 0 0 0, stop := none, all_day := false, completed := false,
    completed_on := [], exdates := [], rrule := some rrC5 }

def rrC6W : RRule := ⟨"DAILY", 1, none, none, none⟩

def eC6W : Event :=
  { id := 18, title := "Daily with exdate", description := "", location := "", assignee := "",
    start := mkInstant 2025 1 1 9 0 0 0, stop := none, all_day := false, completed := false,
    completed_on := [], exdates := ["2025-01-02T09:00:00+00:00"], rrule := some rrC6W }

/-- Plain non-recurring event used by the C8 witness. -/
def eC8ev : Event :=
  { id := 16, title := "Any", description := "", location := "", assignee := "",
    start := mkInstant 2025 1 1 9 0 0 0, stop := none, all_day := false, completed := false,
    completed_on := [], exdates := [], rrule := none }

/-- Event with existing data in every field, used for the C9 witness. -/
def eC9 : Event :=
  { id := 5, title := "Series", description := "desc", location := "loc", assignee := "a",
    start := mkInstant 2025 1 1 9 0 0 0, stop := some (mkInstant 2025 1 1 10 0 0 0),
    all_day := false, completed := true, completed_on := ["2025-01-02T09:00:00+00:00"],
    exdates := ["2024-12-31T09:00:00+00:00"], rrule := some ⟨"DAILY", 1, none, none, none⟩ }

/-- Event whose `completed_on` already holds the normalized occurrence ISO,
used for the C10 witness. -/
def eC10 : Event :=
  { id := 14, title := "Routine", description := "", location := "", assignee := "",
    start := mkInstant 2025 4 10 9 0 0 0, stop := none, all_day := false, completed := false,
    completed_on := ["2025-04-10T09:00:00+00:00"], exdates := [],
    rrule := some ⟨"DAILY", 1, none, none, none⟩ }


/-! ### Helper lemmas -/

theorem occ_payload_startT (e : Event) (dur : Option ℤ) (t : ℤ) :
    (occ_payload e dur t).startT = t := rfl

theorem occ_payload_startIso (e : Event) (dur : Option ℤ) (t : ℤ) :
    (occ_payload e dur t).startIso = isoformat t := rfl

theorem occ_payload_completed (e : Event) (dur : Option ℤ) (t : ℤ) :
    (occ_payload e dur t).completed =
      (e.completed || instance_completed e.completed_on (isoformat t)) := rfl

theorem emit_mem {e : Event} {ex : List String} {dur : Option ℤ} {t : ℤ} {o : Occ}
    (h : o ∈ emit e ex dur t) : o = occ_payload e dur t := by
  unfold emit at h
  split at h
  · exact absurd h (List.not_mem_nil o)
  · exact List.mem_singleton.mp h

theorem mem_flatMap_emit {e : Event} {ex : List String} {dur : Option ℤ} {l : List ℤ} {o : Occ}
    (h : o ∈ l.flatMap (emit e ex dur)) : ∃ t ∈ l, o = occ_payload e dur t := by
  rcases List.mem_flatMap.mp h with ⟨t, ht, ho⟩
  exact ⟨t, ht, emit_mem ho⟩

theorem single_occs_mem {e : Event} {dur : Option ℤ} {wS wE : ℤ} {ctest : String → Bool}
    {o : Occ} (h : o ∈ single_occs e dur wS wE ctest) :
    o.startT = e.start ∧ o.startIso = isoformat e.start ∧
      o.completed = (e.completed || ctest (isoformat e.start)) := by
  unfold single_occs at h
  rcases dur with _ | dv <;> simp only at h
  · split at h
    · rw [List.mem_singleton.mp h]
      exact ⟨rfl, rfl, rfl⟩
    · exact absurd h (List.not_mem_nil o)
  · split at h
    · split at h
      · rw [List.mem_singleton.mp h]
        exact ⟨rfl, rfl, rfl⟩
      · exact absurd h (List.not_mem_nil o)
    · split at h
      · rw [List.mem_singleton.mp h]
        exact ⟨rfl, rfl, rfl⟩
      · exact absurd h (List.not_mem_nil o)

theorem daily_loop_lb {wS wE : ℤ} {dur : Option ℤ} {u : Option ℤ} {step : ℤ}
    (hstep : 0 ≤ step) :
    ∀ (f : ℕ) (cur t : ℤ), t ∈ daily_loop wS wE dur u step f cur → cur ≤ t := by
  intro f
  induction f with
  | zero => intro cur t h; exact absurd h (List.not_mem_nil t)
  | succ k ih =>
    intro cur t h
    simp only [daily_loop] at h
    split at h
    · split at h
      · exact absurd h (List.not_mem_nil t)
      · rcases List.mem_append.mp h with h1 | h2
        · split at h1
          · rw [List.mem_singleton.mp h1]
          · exact absurd h1 (List.not_mem_nil t)
        · have := ih (cur + step) t h2
          omega
    · exact absurd h (List.not_mem_nil t)

theorem daily_starts_lb {base : ℤ} {dur : Option ℤ} {I : ℕ} {u : Option ℤ} {wS wE t : ℤ}
    (h : t ∈ daily_starts base dur I u wS wE) : base ≤ t := by
  simp only [daily_starts] at h
  have h2 := daily_loop_lb (mul_nonneg (Int.natCast_nonneg I) (by norm_num [usPerDay])) _ _ _ h
  have h3 : (0 : ℤ) ≤
      ((if (max 0 (wS / usPerDay - base / usPerDay)).toNat % I = 0 then
          (max 0 (wS / usPerDay - base / usPerDay)).toNat
        else (max 0 (wS / usPerDay - base / usPerDay)).toNat +
          (I - (max 0 (wS / usPerDay - base / usPerDay)).toNat % I) : ℕ) : ℤ) * usPerDay :=
    mul_nonneg (Int.natCast_nonneg _) (by norm_num [usPerDay])
  linarith

theorem month_scan_lb {base : ℤ} {dur : Option ℤ} {u : Option ℤ} {wS wE todSec : ℤ}
    {mdays : List ℕ} {c : ℤ × ℤ} {t : ℤ}
    (h : t ∈ month_scan base dur u wS wE todSec mdays c) : base ≤ t := by
  simp only [month_scan] at h
  rcases List.mem_filterMap.mp h with ⟨dday, _, hf⟩
  split at hf
  · split at hf
    · exact absurd hf (Option.noConfusion)
    · split at hf
      · exact absurd hf (Option.noConfusion)
      · split at hf
        · next hlt _ _ =>
          rw [← Option.some.inj hf]
          omega
        · exact absurd hf (Option.noConfusion)
  · exact absurd hf (Option.noConfusion)

theorem month_loop_lb {base : ℤ} {dur : Option ℤ} {u : Option ℤ} {wS wE todSec : ℤ}
    {mdays : List ℕ} {I : ℕ} :
    ∀ (f : ℕ) (c : ℤ × ℤ) (t : ℤ), t ∈ month_loop base dur u wS wE todSec mdays I f c →
      base ≤ t := by
  intro f
  induction f with
  | zero => intro c t h; exact absurd h (List.not_mem_nil t)
  | succ k ih =>
    intro c t h
    simp only [month_loop] at h
    split at h
    · rcases List.mem_append.mp h with h1 | h2
      · exact month_scan_lb h1
      · exact ih _ t h2
    · exact absurd h (List.not_mem_nil t)

theorem monthly_starts_lb {base : ℤ} {dur : Option ℤ} {I : ℕ} {bymd : Option (List ℕ)}
    {u : Option ℤ} {wS wE t : ℤ}
    (h : t ∈ monthly_starts base dur I bymd u wS wE) : base ≤ t := by
  simp only [monthly_starts] at h
  exact month_loop_lb _ _ t h

theorem weekly_starts_lb {base : ℤ} {dur : Option ℤ} {I : ℕ} {bywd : Option (List ℕ)}
    {u : Option ℤ} {wS wE t : ℤ} (hμ : base % 1000000 = 0)
    (h : t ∈ weekly_starts base dur I bywd u wS wE) : base ≤ t := by
  simp only [weekly_starts] at h
  rcases List.mem_filterMap.mp h with ⟨k, _, hf⟩
  split at hf
  · next hc =>
    split at hf
    · exact absurd hf (Option.noConfusion)
    · split at hf
      · have ht := Option.some.inj hf
        have hw : 0 ≤ (wS / usPerDay + (k : ℤ) - base / usPerDay) / 7 := hc.2.1
        simp only [usPerDay] at ht hw ⊢
        omega
      · exact absurd hf (Option.noConfusion)
  · exact absurd hf (Option.noConfusion)

theorem emit_exdates_filter (e : Event) (ex : List String) (dur : Option ℤ) (t : ℤ) :
    emit e ex dur t =
      (emit e [] dur t).filter (fun o => decide (o.startIso ∉ ex)) := by
  unfold emit
  rw [if_neg (List.not_mem_nil (isoformat t))]
  by_cases hm : isoformat t ∈ ex
  · rw [if_pos hm]
    simp [occ_payload_startIso, hm]
  · rw [if_neg hm]
    simp [occ_payload_startIso, hm]

theorem flatMap_emit_exdates (e : Event) (ex : List String) (dur : Option ℤ) :
    ∀ l : List ℤ, l.flatMap (emit e ex dur) =
      (l.flatMap (emit e [] dur)).filter (fun o => decide (o.startIso ∉ ex)) := by
  intro l
  induction l with
  | nil => rfl
  | cons t ts ih =>
    simp only [List.flatMap_cons, List.filter_append]
    rw [emit_exdates_filter, ih]

theorem filterMap_until_eq {α : Type} (f1 f2 : α → Option ℤ) (p : ℤ → Bool)
    (hpt : ∀ a, f1 a = untilClip p (f2 a)) :
    ∀ L : List α, L.filterMap f1 = (L.filterMap f2).filter p := by
  intro L
  induction L with
  | nil => rfl
  | cons a as ih =>
    rw [List.filterMap_cons, List.filterMap_cons, hpt a]
    cases h2 : f2 a with
    | none => simpa [untilClip] using ih
    | some t =>
      by_cases hp : p t
      · simp [untilClip, hp, List.filter_cons, ih]
      · simp [untilClip, hp, List.filter_cons, ih]

theorem point_until (x cur : ℤ) (b : Bool) :
    (if decide (x < cur) = true then none
     else if b = true then some cur else none) =
      untilClip (fun t => decide (t ≤ x)) (if b = true then some cur else none) := by
  cases b
  · simp [untilClip]
  · by_cases hx : x < cur
    · simp [untilClip, hx, show ¬cur ≤ x by omega]
    · simp [untilClip, hx, show cur ≤ x by omega]

theorem daily_loop_until {wS wE : ℤ} {dur : Option ℤ} {x step : ℤ} (hstep : 0 ≤ step) :
    ∀ (f : ℕ) (cur : ℤ), daily_loop wS wE dur (some x) step f cur =
      (daily_loop wS wE dur none step f cur).filter (fun t => decide (t ≤ x)) := by
  intro f
  induction f with
  | zero => intro cur; rfl
  | succ k ih =>
    intro cur
    simp only [daily_loop, until_hit, Bool.false_eq_true, if_false]
    by_cases hw : cur < wE
    · rw [if_pos hw, if_pos hw]
      by_cases hx : x < cur
      · rw [if_pos (by simpa using hx)]
        have hnil : ∀ t ∈ (if hits_window dur wS wE cur then [cur] else []) ++
            daily_loop wS wE dur none step k (cur + step),
            ¬ ((fun t => decide (t ≤ x)) t = true) := by
          intro t ht
          rcases List.mem_append.mp ht with h1 | h2
          · have : t = cur := by
              rcases Bool.eq_false_or_eq_true (hits_window dur wS wE cur) with hb | hb <;>
                rw [hb] at h1 <;> simp at h1
              exact h1
            simp only [decide_eq_true_eq]
            omega
          · have := daily_loop_lb hstep _ _ _ h2
            simp only [decide_eq_true_eq]
            omega
        rw [List.filter_eq_nil_iff.mpr hnil]
      · rw [if_neg (by simpa using hx), List.filter_append, ih (cur + step)]
        congr 1
        have hcx : cur ≤ x := Int.not_lt.mp hx
        by_cases hh : hits_window dur wS wE cur
        · rw [if_pos hh]
          simp [hcx]
        · rw [if_neg hh]
          rfl
    · rw [if_neg hw, if_neg hw]
      rfl

theorem daily_starts_until {base : ℤ} {dur : Option ℤ} {I : ℕ} {x wS wE : ℤ} :
    daily_starts base dur I (some x) wS wE =
      (daily_starts base dur I none wS wE).filter (fun t => decide (t ≤ x)) := by
  unfold daily_starts
  exact daily_loop_until (mul_nonneg (Int.natCast_nonneg I) (by norm_num [usPerDay])) _ _

theorem weekly_starts_until {base : ℤ} {dur : Option ℤ} {I : ℕ} {bywd : Option (List ℕ)}
    {x wS wE : ℤ} :
    weekly_starts base dur I bywd (some x) wS wE =
      (weekly_starts base dur I bywd none wS wE).filter (fun t => decide (t ≤ x)) := by
  unfold weekly_starts
  apply filterMap_until_eq
  intro k
  dsimp only
  split
  · simp only [until_hit, Bool.false_eq_true, if_false]
    exact point_until _ _ _
  · rfl

theorem month_scan_until {base : ℤ} {dur : Option ℤ} {x wS wE todSec : ℤ}
    {mdays : List ℕ} {c : ℤ × ℤ} :
    month_scan base dur (some x) wS wE todSec mdays c =
      (month_scan base dur none wS wE todSec mdays c).filter (fun t => decide (t ≤ x)) := by
  unfold month_scan
  apply filterMap_until_eq
  intro dday
  dsimp only
  split
  · split
    · rfl
    · simp only [until_hit, Bool.false_eq_true, if_false]
      exact point_until _ _ _
  · rfl

theorem month_loop_until {base : ℤ} {dur : Option ℤ} {x wS wE todSec : ℤ}
    {mdays : List ℕ} {I : ℕ} :
    ∀ (f : ℕ) (c : ℤ × ℤ), month_loop base dur (some x) wS wE todSec mdays I f c =
      (month_loop base dur none wS wE todSec mdays I f c).filter (fun t => decide (t ≤ x)) := by
  intro f
  induction f with
  | zero => intro c; rfl
  | succ k ih =>
    intro c
    simp only [month_loop]
    by_cases hw : month_first_us todSec c < wE
    · rw [if_pos hw, if_pos hw, List.filter_append, month_scan_until, ih]
    · rw [if_neg hw, if_neg hw]
      rfl

theorem monthly_starts_until {base : ℤ} {dur : Option ℤ} {I : ℕ} {bymd : Option (List ℕ)}
    {x wS wE : ℤ} :
    monthly_starts base dur I bymd (some x) wS wE =
      (monthly_starts base dur I bymd none wS wE).filter (fun t => decide (t ≤ x)) := by
  unfold monthly_starts
  exact month_loop_until _ _

theorem emit_filter_keep {e : Event} {ex : List String} {dur : Option ℤ} {t : ℤ}
    {p : ℤ → Bool} (hp : p t = true) :
    (emit e ex dur t).filter (fun o => p o.startT) = emit e ex dur t := by
  unfold emit
  split
  · rfl
  · simp [occ_payload_startT, hp]

theorem emit_filter_drop {e : Event} {ex : List String} {dur : Option ℤ} {t : ℤ}
    {p : ℤ → Bool} (hp : p t = false) :
    (emit e ex dur t).filter (fun o => p o.startT) = [] := by
  unfold emit
  split
  · rfl
  · simp [occ_payload_startT, hp]

theorem flatMap_emit_startT_filter (e : Event) (ex : List String) (dur : Option ℤ)
    (p : ℤ → Bool) :
    ∀ l : List ℤ, (l.filter p).flatMap (emit e ex dur) =
      (l.flatMap (emit e ex dur)).filter (fun o => p o.startT) := by
  intro l
  induction l with
  | nil => rfl
  | cons t ts ih =>
    rw [List.filter_cons, List.flatMap_cons, List.filter_append]
    by_cases hp : p t
    · rw [if_pos hp, List.flatMap_cons, ih, emit_filter_keep hp]
    · rw [if_neg hp, ih, emit_filter_drop (Bool.of_not_eq_true hp)]
      rw [List.nil_append]

theorem lexLe_cons_iff {x y : Char} {xs ys : List Char} :
    lexLe (x :: xs) (y :: ys) = true ↔
      x.toNat < y.toNat ∨ (x.toNat = y.toNat ∧ lexLe xs ys = true) := by
  simp only [lexLe]
  by_cases h1 : x.toNat < y.toNat
  · simp [h1]
  · by_cases h2 : y.toNat < x.toNat
    · rw [if_neg h1, if_pos h2]
      constructor
      · intro h; simp at h
      · intro h
        rcases h with h | ⟨h, _⟩
        · omega
        · omega
    · have hxy : x.toNat = y.toNat := by omega
      simp [h1, h2, hxy]

theorem lexLe_total : ∀ (a b : List Char), lexLe a b = true ∨ lexLe b a = true := by
  intro a
  induction a with
  | nil => intro b; left; rfl
  | cons x xs ih =>
    intro b
    cases b with
    | nil => right; rfl
    | cons y ys =>
      rw [lexLe_cons_iff, lexLe_cons_iff]
      rcases Nat.lt_trichotomy x.toNat y.toNat with h | h | h
      · left; left; exact h
      · rcases ih ys with hr | hr
        · left; right; exact ⟨h, hr⟩
        · right; right; exact ⟨h.symm, hr⟩
      · right; left; exact h

theorem lexLe_trans : ∀ (a b c : List Char), lexLe a b = true → lexLe b c = true →
    lexLe a c = true := by
  intro a
  induction a with
  | nil => intros; rfl
  | cons x xs ih =>
    intro b c hab hbc
    cases b with
    | nil => simp [lexLe] at hab
    | cons y ys =>
      cases c with
      | nil => simp [lexLe] at hbc
      | cons z zs =>
        rw [lexLe_cons_iff] at hab hbc ⊢
        rcases hab with h | ⟨h, hrec⟩ <;> rcases hbc with g | ⟨g, grec⟩
        · left; omega
        · left; omega
        · left; omega
        · right; exact ⟨by omega, ih _ _ hrec grec⟩

/-! ### Claim C1 -/

/-- Claim C1 (code bug, evaluation at the failing input): for the MONTHLY
event anchored in January 2025 with `interval = 2`, querying February alone
emits 2025-02-15 — a month at offset 1 from the anchor month, not a multiple
of 2 — while the window starting in January yields the Jan/Mar grid.  The
month grid therefore depends on the query window, contradicting the claim
(and §4.2/§9 of the spec): the source's anchor-alignment loop
(`month_index = 0; while month_index % interval != 0`) can never run. -/
theorem c1_monthly_grid_follows_window :
    (expand_event eC1 (mkInstant 2025 2 1 0 0 0 0) (mkInstant 2025 3 1 0 0 0 0)).map
        (fun o => o.startIso) = ["2025-02-15T09:00:00+00:00"] ∧
    (expand_event eC1 (mkInstant 2025 1 1 0 0 0 0) (mkInstant 2025 4 1 0 0 0 0)).map
        (fun o => o.startIso) = ["2025-01-15T09:00:00+00:00", "2025-03-15T09:00:00+00:00"] := by
  decide

/-! ### Claim C2 -/

/-- Claim C2, counterexample: a DAILY occurrence of a series with
`completed = true` and an empty `completed_on` list is emitted with
`completed = true`, although `is_completed` alone is false — the base payload
carries the series-level flag into every recurring occurrence, so the claim's
"purely `is_completed`, never propagated" is false on the code. -/
theorem c2_series_flag_propagates :
    (expand_event eC2 (mkInstant 2025 1 1 0 0 0 0) (mkInstant 2025 1 2 0 0 0 0)).map
        (fun o => (o.startIso, o.completed)) = [("2025-01-01T09:00:00+00:00", true)] ∧
    instance_completed eC2.completed_on "2025-01-01T09:00:00+00:00" = false := by
  decide

/-! ### Claim C3 -/

/-- Claim C3 (code bug, evaluation at the failing input): the zero-duration
WEEKLY series anchored Monday 2025-03-03T09:00Z queried over
`[2025-03-03T00:00Z, 2025-03-10T00:30Z)` also emits 2025-03-10T09:00Z, whose
start is past `win_end` — the weekly day-walk scans one day beyond the window
and the zero-duration emission test checks only `cur >= win_start`. -/
theorem c3_weekly_zero_duration_leaks_past_window :
    (expand_event eC3 (mkInstant 2025 3 3 0 0 0 0) (mkInstant 2025 3 10 0 30 0 0)).map
        (fun o => o.startT) = [mkInstant 2025 3 3 9 0 0 0, mkInstant 2025 3 10 9 0 0 0] ∧
    mkInstant 2025 3 10 0 30 0 0 ≤ mkInstant 2025 3 10 9 0 0 0 ∧
    eC3.stop = none := by
  decide

/-! ### Claim C4 -/

/-- Claim C4, counterexample: the WEEKLY branch rebuilds candidates from
hour/minute/second only, so the series anchored at 2025-03-03T09:00:00.5Z
emits an occurrence at 2025-03-03T09:00:00.0Z — strictly before
`event.start`. -/
theorem c4_weekly_preanchor_leak :
    (expand_event eC4 (mkInstant 2025 3 3 0 0 0 0) (mkInstant 2025 3 4 0 0 0 0)).map
        (fun o => o.startT) = [mkInstant 2025 3 3 9 0 0 0] ∧
    mkInstant 2025 3 3 9 0 0 0 < eC4.start := by
  decide

/-! ### Claim C6 -/

/-- Claim C6, counterexample: a non-recurring event whose start is listed in
its own `exdates` is emitted anyway — the non-recurring path never applies
the exdate filter, so suppression is not "applied to every occurrence of
every event". -/
theorem c6_nonrecurring_ignores_exdates :
    (expand_event eC6 (mkInstant 2025 5 1 0 0 0 0) (mkInstant 2025 5 2 0 0 0 0)).map
        (fun o => o.startIso) = ["2025-05-01T10:00:00+00:00"] ∧
    "2025-05-01T10:00:00+00:00" ∈ eC6.exdates := by
  decide

/-! ### Claim C7 -/

/-- Claim C7, counterexample: with `limit = -1` (accepted by `_as_int`) and
two in-window occurrences, Python's `results[:-1]` returns one entry, and
`1 ≤ -1` fails — the output length is not bounded by `limit` for negative
limits. -/
theorem c7_negative_limit_exceeded :
    (api_upcoming_alarms [eC7a, eC7b] 1440 5 (-1) (mkInstant 2025 1 1 12 0 0 0)).length = 1 ∧
    ¬ ((1 : ℤ) ≤ -1) := by
  decide

/-! ### Claim C8 -/

/-- Claim C8, counterexample: `_parse_iso "garbage"` is `None`, not an error,
and a range query with that unparsable `start` bound and no stored events
succeeds with an empty list — no immediate client error is produced. -/
theorem c8_unparsable_bound_not_rejected :
    parse_iso "garbage" = none ∧
    api_get_events [] (some "garbage") (some "2025-01-01T00:00:00Z") = .ok [] := by
  decide


/-! ### Claim C2 (amended) -/

/-- Claim C2, amended: for every event that is non-recurring or has a
recognized frequency, every emitted occurrence carries
`completed = event.completed OR is_completed(start, completed_on)` — the
series-level flag IS propagated into recurring occurrences too (via the base
payload), contrary to the claim's recurring case. -/
theorem c2_amended :
    ∀ (e : Event) (wS wE : ℤ) (o : Occ), knownShapeB e = true →
      o ∈ expand_event e wS wE →
      o.completed = (e.completed || instance_completed e.completed_on o.startIso) := by
  intro e wS wE o hk ho
  unfold expand_event at ho
  cases hrr : e.rrule with
  | none =>
    rw [hrr] at ho
    simp only at ho
    have h := single_occs_mem ho
    rw [h.2.2, h.2.1]
  | some rr =>
    rw [hrr] at ho
    simp only at ho
    have hk2 : knownFreqB rr = true := by
      unfold knownShapeB at hk
      rw [hrr] at hk
      exact hk
    have hcases : asciiUpper rr.freq = "DAILY" ∨ asciiUpper rr.freq = "WEEKLY" ∨
        asciiUpper rr.freq = "MONTHLY" := by
      unfold knownFreqB at hk2
      simp only [Bool.or_eq_true, beq_iff_eq] at hk2
      tauto
    rcases hcases with hf | hf | hf
    · rw [if_pos hf] at ho
      rcases mem_flatMap_emit ho with ⟨t, _, rfl⟩
      rfl
    · rw [hf] at ho
      rw [if_neg (by decide), if_pos rfl] at ho
      rcases mem_flatMap_emit ho with ⟨t, _, rfl⟩
      rfl
    · rw [hf] at ho
      rw [if_neg (by decide), if_neg (by decide), if_pos rfl] at ho
      rcases mem_flatMap_emit ho with ⟨t, _, rfl⟩
      rfl

/-- Witness for the amended C2 at a concrete daily series and occurrence. -/
theorem c2_amended_witness :
    (occ_payload eC2 none (mkInstant 2025 1 1 9 0 0 0)).completed =
      (eC2.completed || instance_completed eC2.completed_on
        (occ_payload eC2 none (mkInstant 2025 1 1 9 0 0 0)).startIso) :=
  c2_amended eC2 (mkInstant 2025 1 1 0 0 0 0) (mkInstant 2025 1 2 0 0 0 0) _
    (by decide) (by decide)


/-! ### Claim C4 (amended) -/

/-- Claim C4, amended: no pre-anchor leakage holds for every event whose
anchor start lies on a whole second (zero microsecond component) — the DAILY
branch steps forward from the anchor, the MONTHLY branch has an explicit
pre-anchor guard, the single paths emit at the anchor itself, and the WEEKLY
branch can only lose the anchor's sub-second part. -/
theorem c4_amended :
    ∀ (e : Event) (wS wE : ℤ) (o : Occ), e.start % 1000000 = 0 →
      o ∈ expand_event e wS wE → e.start ≤ o.startT := by
  intro e wS wE o hμ ho
  unfold expand_event at ho
  cases hrr : e.rrule with
  | none =>
    rw [hrr] at ho
    simp only at ho
    rw [(single_occs_mem ho).1]
  | some rr =>
    rw [hrr] at ho
    simp only at ho
    by_cases hd : asciiUpper rr.freq = "DAILY"
    · rw [if_pos hd] at ho
      rcases mem_flatMap_emit ho with ⟨t, ht, rfl⟩
      exact daily_starts_lb ht
    · rw [if_neg hd] at ho
      by_cases hw : asciiUpper rr.freq = "WEEKLY"
      · rw [if_pos hw] at ho
        rcases mem_flatMap_emit ho with ⟨t, ht, rfl⟩
        exact weekly_starts_lb hμ ht
      · rw [if_neg hw] at ho
        by_cases hm : asciiUpper rr.freq = "MONTHLY"
        · rw [if_pos hm] at ho
          rcases mem_flatMap_emit ho with ⟨t, ht, rfl⟩
          exact monthly_starts_lb ht
        · rw [if_neg hm] at ho
          rw [(single_occs_mem ho).1]

/-- Witness for the amended C4 at a whole-second weekly series. -/
theorem c4_amended_witness :
    eC4W.start ≤ (occ_payload eC4W none (mkInstant 2025 3 10 9 0 0 0)).startT :=
  c4_amended eC4W (mkInstant 2025 3 9 0 0 0 0) (mkInstant 2025 3 11 0 0 0 0) _
    (by decide) (by decide)


/-! ### Claim C5 -/

/-- Claim C5 (confirmed for the three recurrence branches): with an `until`
instant the expansion equals the until-free expansion filtered by
`start ≤ until` — so a candidate whose start is exactly `until` is emitted
whenever it meets the other emission conditions, and nothing after `until`
is ever emitted.  (The unknown-frequency fallback ignores the rrule
entirely, `until` included, as documented in the spec.) -/
theorem c5_until_inclusive :
    ∀ (e : Event) (rr : RRule) (u : ℤ) (wS wE : ℤ),
      e.rrule = some rr → rr.until_ = some u → knownFreqB rr = true →
      expand_event e wS wE =
        (expand_event { e with rrule := some { rr with until_ := none } } wS wE).filter
          (fun o => decide (o.startT ≤ u)) := by
  intro e rr u wS wE hrr hu hk
  have hcases : asciiUpper rr.freq = "DAILY" ∨ asciiUpper rr.freq = "WEEKLY" ∨
      asciiUpper rr.freq = "MONTHLY" := by
    unfold knownFreqB at hk
    simp only [Bool.or_eq_true, beq_iff_eq] at hk
    tauto
  rcases e with ⟨eid, etl, eds, elc, eas, est, esp, ead, ecp, ecn, eex, err⟩
  simp only at hrr
  subst hrr
  rcases rr with ⟨rfq, rint, rbw, rbm, run⟩
  simp only at hu hcases
  subst hu
  rcases hcases with hf | hf | hf
  · simp only [expand_event, hf, String.reduceEq, reduceIte]
    rw [daily_starts_until, flatMap_emit_startT_filter]
    rfl
  · simp only [expand_event, hf, String.reduceEq, reduceIte]
    rw [weekly_starts_until, flatMap_emit_startT_filter]
    rfl
  · simp only [expand_event, hf, String.reduceEq, reduceIte]
    rw [monthly_starts_until, flatMap_emit_startT_filter]
    rfl

/-- Witness for C5: a daily series whose `until` falls exactly on its third
occurrence. -/
theorem c5_witness :
    expand_event eC5 (mkInstant 2025 1 1 0 0 0 0) (mkInstant 2025 1 6 0 0 0 0) =
      (expand_event { eC5 with rrule := some { rrC5 with until_ := none } }
          (mkInstant 2025 1 1 0 0 0 0) (mkInstant 2025 1 6 0 0 0 0)).filter
        (fun o => decide (o.startT ≤ mkInstant 2025 1 3 9 0 0 0)) :=
  c5_until_inclusive eC5 rrC5 (mkInstant 2025 1 3 9 0 0 0)
    (mkInstant 2025 1 1 0 0 0 0) (mkInstant 2025 1 6 0 0 0 0) rfl rfl (by decide)


/-! ### Claim C6 (amended) -/

/-- Claim C6, amended: for every recurring event with a recognized
frequency, the expansion equals the exdate-free expansion filtered by
`startIso ∉ exdates` — members of `exdates` are dropped, everything else is
unaffected.  The non-recurring (and unknown-frequency) single occurrence
bypasses the filter (see the counterexample). -/
theorem c6_amended :
    ∀ (e : Event) (rr : RRule) (wS wE : ℤ), e.rrule = some rr → knownFreqB rr = true →
      expand_event e wS wE =
        (expand_event { e with exdates := [] } wS wE).filter
          (fun o => decide (o.startIso ∉ e.exdates)) := by
  intro e rr wS wE hrr hk
  have hcases : asciiUpper rr.freq = "DAILY" ∨ asciiUpper rr.freq = "WEEKLY" ∨
      asciiUpper rr.freq = "MONTHLY" := by
    unfold knownFreqB at hk
    simp only [Bool.or_eq_true, beq_iff_eq] at hk
    tauto
  rcases e with ⟨eid, etl, eds, elc, eas, est, esp, ead, ecp, ecn, eex, err⟩
  simp only at hrr
  subst hrr
  rcases hcases with hf | hf | hf
  · simp only [expand_event, hf, String.reduceEq, reduceIte]
    rw [flatMap_emit_exdates]
    rfl
  · simp only [expand_event, hf, String.reduceEq, reduceIte]
    rw [flatMap_emit_exdates]
    rfl
  · simp only [expand_event, hf, String.reduceEq, reduceIte]
    rw [flatMap_emit_exdates]
    rfl

/-- Witness for the amended C6 at a daily series with one exdate. -/
theorem c6_witness :
    expand_event eC6W (mkInstant 2025 1 1 0 0 0 0) (mkInstant 2025 1 4 0 0 0 0) =
      (expand_event { eC6W with exdates := [] } (mkInstant 2025 1 1 0 0 0 0)
          (mkInstant 2025 1 4 0 0 0 0)).filter
        (fun o => decide (o.startIso ∉ eC6W.exdates)) :=
  c6_amended eC6W rrC6W (mkInstant 2025 1 1 0 0 0 0) (mkInstant 2025 1 4 0 0 0 0)
    rfl (by decide)


/-! ### Claim C7 (amended) -/

/-- Claim C7, amended: the alarm query output is always sorted ascending by
the `when` string, and for every nonnegative `limit` its length is at most
`limit`.  (A negative `limit` slices from the end instead — see the
counterexample.) -/
theorem c7_amended :
    ∀ (events : List Event) (within grace limit : ℤ) (now : ℤ),
      List.Pairwise whenLe (api_upcoming_alarms events within grace limit now) ∧
      (0 ≤ limit →
        (api_upcoming_alarms events within grace limit now).length ≤ limit.toNat) := by
  intro evs w g lim now
  haveI : IsTrans Alarm whenLe := ⟨fun _ _ _ => lexLe_trans _ _ _⟩
  haveI : IsTotal Alarm whenLe := ⟨fun _ _ => lexLe_total _ _⟩
  constructor
  · unfold api_upcoming_alarms pySliceTo
    have hs := List.sorted_insertionSort whenLe
      ((evs.flatMap (fun e => (expand_event e (now - g * 60000000) (now + w * 60000000)).map
        alarmOf)))
    split
    · exact List.Pairwise.take hs
    · exact List.Pairwise.take hs
  · intro hlim
    unfold api_upcoming_alarms pySliceTo
    rw [if_pos hlim]
    exact List.length_take_le _ _

/-- Witness for the amended C7 with the default parameters. -/
theorem c7_witness :
    (api_upcoming_alarms [eC7a, eC7b] 1440 5 50 (mkInstant 2025 1 1 12 0 0 0)).length ≤
      (50 : ℤ).toNat :=
  (c7_amended [eC7a, eC7b] 1440 5 50 (mkInstant 2025 1 1 12 0 0 0)).2 (by decide)


/-! ### Claim C8 (amended) -/

/-- Claim C8, amended: an unparsable (nonempty) `start` bound is not turned
into a client error: `_parse_iso` yields `None` silently and the endpoint
proceeds — an empty success when no events are stored, an unhandled server
error (from `_as_utc(None)`) otherwise. -/
theorem c8_amended :
    ∀ (events : List Event) (s e2 : String), s ≠ "" → e2 ≠ "" → parse_iso s = none →
      api_get_events events (some s) (some e2) =
        (if events = [] then RangeOut.ok [] else RangeOut.serverErr) := by
  intro evs s e2 hs he hp
  unfold api_get_events
  have h1 : argTruthy (some s) = true := by simp [argTruthy, hs]
  have h2 : argTruthy (some e2) = true := by simp [argTruthy, he]
  rw [h1, h2]
  simp only [Bool.and_self, Bool.not_true, Bool.false_eq_true, if_false]
  simp only [Option.getD_some, hp]

/-- Witness for the amended C8 with one stored event. -/
theorem c8_witness :
    api_get_events [eC8ev] (some "garbage") (some "2025-01-01T00:00:00Z") =
      (if [eC8ev] = [] then RangeOut.ok [] else RangeOut.serverErr) :=
  c8_amended [eC8ev] "garbage" "2025-01-01T00:00:00Z" (by decide) (by decide) (by decide)


/-! ### Claim C9 -/

/-- Claim C9 (confirmed): deleting with a composite id and a mode other than
"series" never deletes the Event row.  An unparsable occurrence part is a 400
with the event untouched; otherwise the result is the same event with only
the UTC-normalized occurrence ISO string appended to `exdates` (and only when
absent) — every other field is untouched by construction of the record
update. -/
theorem c9_delete_occurrence_frame :
    ∀ (e : Event) (event_id mode : String),
      event_id.data.contains ':' = true → asciiLower mode ≠ "series" →
      api_delete_event e event_id mode ≠ DelOut.seriesDeleted ∧
      (parse_iso (afterColon event_id) = none →
        api_delete_event e event_id mode = DelOut.badRequest) ∧
      (∀ t : ℤ, parse_iso (afterColon event_id) = some t →
        api_delete_event e event_id mode =
          DelOut.occSkipped
            (if isoformat t ∈ e.exdates then e
             else { e with exdates := e.exdates ++ [isoformat t] })
            (isoformat t)) := by
  intro e eid mode hc hm
  have hms : (asciiLower mode == "series") = false := by
    simp only [beq_eq_false_iff_ne, ne_eq]
    exact hm
  unfold api_delete_event
  rw [hc, hms]
  simp only [Bool.not_false, Bool.and_true, if_true]
  refine ⟨?_, ?_, ?_⟩
  · cases hp : parse_iso (afterColon eid) <;> simp
  · intro hp; rw [hp]
  · intro t hp; rw [hp]

/-- Witness for C9 at a concrete event and composite id. -/
theorem c9_witness :
    api_delete_event eC9 "5:2025-01-01T09:00:00Z" "" ≠ DelOut.seriesDeleted ∧
    api_delete_event eC9 "5:2025-01-01T09:00:00Z" "" =
      DelOut.occSkipped
        (if isoformat (mkInstant 2025 1 1 9 0 0 0) ∈ eC9.exdates then eC9
         else { eC9 with exdates := eC9.exdates ++ [isoformat (mkInstant 2025 1 1 9 0 0 0)] })
        (isoformat (mkInstant 2025 1 1 9 0 0 0)) := by
  have h := c9_delete_occurrence_frame eC9 "5:2025-01-01T09:00:00Z" "" (by decide) (by decide)
  exact ⟨h.1, h.2.2 (mkInstant 2025 1 1 9 0 0 0) (by decide)⟩


/-! ### Claim C10 -/

/-- Claim C10 (confirmed): marking an occurrence complete appends the
normalized ISO only when absent, so the update is idempotent (any number of
repetitions equals one application), leaves `completed_on` unchanged when the
ISO is already present, and never introduces a duplicate: the count of the
marked ISO becomes `max 1 (old count)` and every other entry's count is
unchanged. -/
theorem c10_mark_complete_idempotent :
    ∀ (e : Event) (s : String) (t : ℤ), parse_iso s = some t →
      api_update_completed e true (some s) = UpdOut.okOcc (markStep s e) (isoformat t) ∧
      (isoformat t ∈ e.completed_on → markStep s e = e) ∧
      (∀ n : ℕ, (markStep s)^[n + 1] e = markStep s e) ∧
      (markStep s e).completed_on.count (isoformat t) =
        max 1 (e.completed_on.count (isoformat t)) ∧
      (∀ x : String, x ≠ isoformat t →
        (markStep s e).completed_on.count x = e.completed_on.count x) := by
  intro e s t hp
  have hs : s ≠ "" := by
    intro h
    have hnone : parse_iso "" = none := by decide
    rw [h, hnone] at hp
    exact Option.noConfusion hp
  have hapi : ∀ e2 : Event, api_update_completed e2 true (some s) =
      UpdOut.okOcc (if isoformat t ∈ e2.completed_on then e2
        else { e2 with completed_on := e2.completed_on ++ [isoformat t] }) (isoformat t) := by
    intro e2
    simp only [api_update_completed, if_neg hs, hp, if_true]
  have hstep : ∀ e2 : Event, markStep s e2 =
      if isoformat t ∈ e2.completed_on then e2
      else { e2 with completed_on := e2.completed_on ++ [isoformat t] } := by
    intro e2
    simp only [markStep, hapi e2]
  have hmem : isoformat t ∈ (markStep s e).completed_on := by
    rw [hstep e]
    by_cases hm : isoformat t ∈ e.completed_on
    · rw [if_pos hm]; exact hm
    · rw [if_neg hm]; exact List.mem_append_right _ (List.mem_singleton_self _)
  have hfix : markStep s (markStep s e) = markStep s e := by
    rw [hstep (markStep s e), if_pos hmem]
  refine ⟨by rw [hapi e, hstep e], fun hm => by rw [hstep e, if_pos hm], ?_, ?_, ?_⟩
  · intro n
    induction n with
    | zero => rfl
    | succ k ih =>
      rw [Function.iterate_succ_apply', ih, hfix]
  · rw [hstep e]
    by_cases hm : isoformat t ∈ e.completed_on
    · rw [if_pos hm]
      have : 0 < e.completed_on.count (isoformat t) := List.count_pos_iff.mpr hm
      omega
    · rw [if_neg hm]
      have h0 : e.completed_on.count (isoformat t) = 0 := List.count_eq_zero.mpr hm
      simp [List.count_append, h0]
  · intro x hx
    rw [hstep e]
    by_cases hm : isoformat t ∈ e.completed_on
    · rw [if_pos hm]
    · rw [if_neg hm]
      simp [List.count_append, List.count_singleton', hx.symm]

/-- Witness for C10: with the ISO already present the event is unchanged, and
three applications equal one. -/
theorem c10_witness :
    markStep "2025-04-10T09:00:00Z" eC10 = eC10 ∧
    (markStep "2025-04-10T09:00:00Z")^[3] eC10 = markStep "2025-04-10T09:00:00Z" eC10 := by
  have h := c10_mark_complete_idempotent eC10 "2025-04-10T09:00:00Z"
    (mkInstant 2025 4 10 9 0 0 0) (by decide)
  exact ⟨h.2.1 (by decide), h.2.2.1 2⟩
